import Mathlib

/-!
# Verification of the DNS message codec and iterative resolver

Shallow embedding of the Rust sources (`src/errors.rs`, `src/message/label.rs`,
`src/message/header.rs`, `src/message/question.rs`, `src/message/rr.rs`,
`src/message/mod.rs`, `src/main.rs`).

Conventions of the embedding:
* Bytes and machine integers are `Nat`; overflow is modelled with explicit
  `% 256` / `% 65536` exactly where the Rust code performs a wrapping cast.
* Buffers are `List Nat`; Rust slice `&b[i..]` becomes `List.drop i b` guarded
  by the explicit bound check that Rust performs at runtime (an out-of-range
  slice or index, and an `unwrap` of an `Err`, are Rust panics, modelled by
  the distinguished outcome `Fault.crash`).
* Rust `String` label payloads are byte lists; `from_utf8_lossy` on the bytes
  of a Rust `String` is the identity, so the byte list is the faithful carrier.
* Error payload strings (the `format!` messages) are dropped; only the
  `DnsError` constructor is kept, which is what every caller inspects.
-/

deriving instance DecidableEq for Except

namespace Dns

/-- `DnsError` from `errors.rs` (payload message strings omitted). -/
inductive DnsError where
  | Generic
  | ParseError
  | MarshalError
deriving DecidableEq, Repr

/-- Outcome of running a fallible Rust operation: either a `DnsError` value
returned through `Result`, or an uncatchable fault (a Rust panic, e.g. an
out-of-bounds index or an `unwrap` of an `Err`). -/
inductive Fault where
  | err (e : DnsError)
  | crash
deriving DecidableEq, Repr

/-- `Label` from `label.rs`: a literal name segment (its bytes) or a
compression pointer (an offset into the enclosing message). -/
inductive Label where
  | L (s : List Nat)
  | P (off : Nat)
deriving DecidableEq, Repr

/-- Loop body of `parse_label_bytes` (`label.rs` lines 13-69): `idx` is the
running cursor, `acc` the labels pushed so far.  The Rust `while` loop
terminates because `idx` strictly increases (by `c + 1 ≥ 2` per literal
label) while bounded by `b.length`; `fuel` makes that measure structural.
Entered with `fuel = b.length`, the fuel cannot run out before `idx`
reaches `b.length`, and when both are exhausted at once the fuel-zero
result is exactly the loop's fall-off-the-end outcome, the
`reached_end == false` `ParseError`. -/
def parseLabelBytesLoop (b : List Nat) : Nat → Nat → List Label → Except DnsError (Nat × List Label)
  | 0, _idx, _acc => .error .ParseError
  | fuel + 1, idx, acc =>
    if idx < b.length then
      let c := b.getD idx 0
      if c &&& 0xC0 == 0xC0 then
        -- pointer: low 6 bits of `c` and the next octet form a 14-bit offset
        let offB0 := c ^^^ 0xC0
        if idx + 1 ≥ b.length then
          .error .ParseError
        else
          .ok (idx + 2, acc ++ [.P (offB0 * 256 + b.getD (idx + 1) 0)])
      else if c == 0 then
        -- zero octet: terminator, consumed but not emitted
        .ok (idx + 1, acc)
      else
        -- literal label of `c` octets
        if idx + c ≥ b.length then
          .error .ParseError
        else
          parseLabelBytesLoop b fuel (idx + c + 1) (acc ++ [.L ((b.drop (idx + 1)).take c)])
    else
      -- loop fell off the end of the buffer without a terminator or pointer
      .error .ParseError

/-- `parse_label_bytes` from `label.rs`. -/
def parseLabelBytes (b : List Nat) : Except DnsError (Nat × List Label) :=
  parseLabelBytesLoop b b.length 0 []

/-- `MAX_LABEL_RESOLVE_DEPTH` from `label.rs`. -/
def MAX_LABEL_RESOLVE_DEPTH : Nat := 10

/-- Loop of `resolve_labels` (`label.rs` lines 73-94).  The Rust loop counts
`iter_count` up from 0 and errors when it reaches 10; here `fuel` counts the
same quantity down from `MAX_LABEL_RESOLVE_DEPTH` (fuel = 10 - iter_count),
which is the change of variable that exhibits the bound as the termination
measure.  `&msg[offset..]` with `offset > msg.len()` is a Rust panic,
modelled by `Fault.crash`. -/
def resolveLoop (msg : List Nat) : List Label → Nat → Except Fault (List Label)
  | labels, fuel =>
    match labels.getLast? with
    | none => .ok labels
    | some lab =>
      match fuel with
      | 0 => .error (.err .ParseError)
      | fuel' + 1 =>
        match lab with
        | .L _ => .ok labels
        | .P off =>
          if off > msg.length then .error .crash
          else
            match parseLabelBytes (msg.drop off) with
            | .error e => .error (.err e)
            | .ok (_, next) => resolveLoop msg (labels.dropLast ++ next) fuel'

/-- The final join of `resolve_labels`: literal labels joined with `'.'`
(byte 46); pointers are filtered out. -/
def joinDomain (labels : List Label) : List Nat :=
  List.intercalate [46] (labels.filterMap fun l => match l with
    | .L s => some s
    | .P _ => none)

/-- `resolve_labels` from `label.rs`: returns the label list after in-place
pointer resolution together with the textual domain it joins to. -/
def resolveLabels (msg : List Nat) (labels : List Label) :
    Except Fault (List Label × List Nat) :=
  match resolveLoop msg labels MAX_LABEL_RESOLVE_DEPTH with
  | .error f => .error f
  | .ok ls => .ok (ls, joinDomain ls)

/-- Inner byte loop of `write_labels` (`label.rs` lines 137-145): writes the
bytes of a literal label one at a time, checking space before each write. -/
def writeStringBytes : List Nat → List Nat → Nat → Except DnsError (Nat × List Nat)
  | [], dest, idx => .ok (idx, dest)
  | byte :: rest, dest, idx =>
    if dest.length ≤ idx then .error .MarshalError
    else writeStringBytes rest (dest.set idx byte) (idx + 1)

/-- Main loop of `write_labels` (`label.rs` lines 127-162).  Returns the
cursor, the updated destination and the `wrote_offset` flag.  A pointer label
is written as two `0xC0`-prefixed bytes and `break`s out of the loop (any
remaining labels are ignored, as in the source). -/
def writeLabelsLoop : List Label → List Nat → Nat → Except DnsError (Nat × List Nat × Bool)
  | [], dest, idx => .ok (idx, dest, false)
  | lab :: rest, dest, idx =>
    if dest.length ≤ idx then .error .MarshalError
    else
      match lab with
      | .L s =>
        match writeStringBytes s (dest.set idx (s.length % 256)) (idx + 1) with
        | .error e => .error e
        | .ok (idx2, dest2) => writeLabelsLoop rest dest2 idx2
      | .P off =>
        if dest.length ≤ idx + 1 then .error .MarshalError
        else .ok (idx + 2, (dest.set idx (0xC0 ||| (off % 65536 / 256))).set (idx + 1) (off % 256), true)

/-- `write_labels` from `label.rs`.  Note that the final terminating-zero
write `dest[idx] = 0` (line 165) is NOT preceded by a bounds check in the
source; when `idx` has reached `dest.len()` it is a Rust panic, modelled by
`Fault.crash`. -/
def writeLabels (labels : List Label) (dest : List Nat) : Except Fault (Nat × List Nat) :=
  if labels.length = 0 then .ok (0, dest)
  else
    match writeLabelsLoop labels dest 0 with
    | .error e => .error (.err e)
    | .ok (idx, d, wroteOffset) =>
      if wroteOffset then .ok (idx, d)
      else if d.length ≤ idx then .error .crash
      else .ok (idx + 1, d.set idx 0)

/-- `Opcode` from `header.rs`. -/
inductive Opcode where
  | StandardQuery
  | InverseQuery
  | StatusRequest
  | Reserved (v : Nat)
deriving DecidableEq, Repr, Inhabited

/-- `impl From<u8> for Opcode`. -/
def Opcode.ofNat : Nat → Opcode
  | 0 => .StandardQuery
  | 1 => .InverseQuery
  | 2 => .StatusRequest
  | v => .Reserved v

/-- `impl Into<u8> for Opcode`. -/
def Opcode.toNat : Opcode → Nat
  | .StandardQuery => 0
  | .InverseQuery => 1
  | .StatusRequest => 2
  | .Reserved v => v

/-- `ResponseCode` from `header.rs` (source spelling of `NotImpemented` kept). -/
inductive ResponseCode where
  | NoError
  | FormatError
  | ServerFailure
  | NameError
  | NotImpemented
  | Refused
  | Reserved (v : Nat)
deriving DecidableEq, Repr, Inhabited

/-- `impl From<u8> for ResponseCode`. -/
def ResponseCode.ofNat : Nat → ResponseCode
  | 0 => .NoError
  | 1 => .FormatError
  | 2 => .ServerFailure
  | 3 => .NameError
  | 4 => .NotImpemented
  | 5 => .Refused
  | v => .Reserved v

/-- `impl Into<u8> for ResponseCode`. -/
def ResponseCode.toNat : ResponseCode → Nat
  | .NoError => 0
  | .FormatError => 1
  | .ServerFailure => 2
  | .NameError => 3
  | .NotImpemented => 4
  | .Refused => 5
  | .Reserved v => v

/-- `Header` from `header.rs` (16-bit fields carried as `Nat`). -/
structure Header where
  id : Nat
  qr : Bool
  opcode : Opcode
  aa : Bool
  tc : Bool
  rd : Bool
  ra : Bool
  rcode : ResponseCode
  qdcount : Nat
  ancount : Nat
  arcount : Nat
  nscount : Nat
deriving DecidableEq, Repr

/-- `Header::default()`. -/
def Header.default : Header :=
  { id := 0, qr := false, opcode := .StandardQuery, aa := false, tc := false,
    rd := false, ra := false, rcode := .NoError,
    qdcount := 0, ancount := 0, arcount := 0, nscount := 0 }

/-- `if b { 1 } else { 0 }`. -/
def boolBit (b : Bool) : Nat := if b then 1 else 0

/-- `Header::write` (`header.rs` lines 110-165).  Byte 2 accumulates
QR `<<7`, opcode `<<3` (a `u8` shift, hence the `% 256` wrap), AA `<<2`,
TC `<<1`, RD; byte 3 accumulates RA `<<7` and RCODE.  Counts are written
big-endian in the source order qd, an, ar, ns at offsets 4,6,8,10. -/
def Header.write (h : Header) (dest : List Nat) : Except DnsError (List Nat) :=
  if dest.length < 12 then .error .MarshalError
  else
    let byte2 := (boolBit h.qr <<< 7) ||| ((h.opcode.toNat <<< 3) % 256) |||
      (boolBit h.aa <<< 2) ||| (boolBit h.tc <<< 1) ||| boolBit h.rd
    let byte3 := (boolBit h.ra <<< 7) ||| h.rcode.toNat
    .ok ((((((((((((dest.set 0 (h.id / 256 % 256)).set 1 (h.id % 256)).set 2 byte2).set
      3 byte3).set 4 (h.qdcount / 256 % 256)).set 5 (h.qdcount % 256)).set
      6 (h.ancount / 256 % 256)).set 7 (h.ancount % 256)).set
      8 (h.arcount / 256 % 256)).set 9 (h.arcount % 256)).set
      10 (h.nscount / 256 % 256)).set 11 (h.nscount % 256))

/-- `Header::parse` (`header.rs` lines 167-190).  The opcode expression in
the source is `src[2] & 0x78 >> 3`; in Rust `>>` binds tighter than `&`, so
it denotes `src[2] & (0x78 >> 3)`, i.e. `src[2] & 0x0f` — the low nibble of
byte 2 — and the embedding reproduces exactly that. -/
def Header.parse (src : List Nat) : Except DnsError Header :=
  if src.length < 12 then .error .ParseError
  else
    .ok { id := src.getD 0 0 * 256 + src.getD 1 0
          qdcount := src.getD 4 0 * 256 + src.getD 5 0
          ancount := src.getD 6 0 * 256 + src.getD 7 0
          arcount := src.getD 8 0 * 256 + src.getD 9 0
          nscount := src.getD 10 0 * 256 + src.getD 11 0
          qr := (src.getD 2 0 &&& 0x80) != 0
          aa := (src.getD 2 0 &&& 0x04) != 0
          tc := (src.getD 2 0 &&& 0x02) != 0
          rd := (src.getD 2 0 &&& 0x01) != 0
          ra := (src.getD 3 0 &&& 0x80) != 0
          opcode := Opcode.ofNat (src.getD 2 0 &&& (0x78 >>> 3))
          rcode := ResponseCode.ofNat (src.getD 3 0 &&& 0x0f) }

/-- `Question` from `question.rs`. -/
structure Question where
  qname : List Label
  qtype : Nat
  qclass : Nat
deriving DecidableEq, Repr

/-- `Question::parse` (`question.rs` lines 13-31): a name via the label
codec, then 2 bytes qtype + 2 bytes qclass big-endian. -/
def Question.parse (b : List Nat) : Except DnsError (Nat × Question) :=
  match parseLabelBytes b with
  | .error e => .error e
  | .ok (read, labels) =>
    if b.length ≤ read + 3 then .error .ParseError
    else
      .ok (read + 4,
        { qname := labels
          qtype := b.getD read 0 * 256 + b.getD (read + 1) 0
          qclass := b.getD (read + 2) 0 * 256 + b.getD (read + 3) 0 })

/-- `ResourceRecord` from `rr.rs` (`cls` carries the Rust field `class`,
which is a reserved word in Lean). -/
structure ResourceRecord where
  name : List Label
  t : Nat
  cls : Nat
  ttl : Nat
  rdlength : Nat
  rdata : List Nat
deriving DecidableEq, Repr

/-- `ResourceRecord::parse` (`rr.rs` lines 16-57).  The source checks
`b.len() < offset + 9 + rdlength` before slicing
`b[offset + 10 .. offset + 10 + rdlength]`; the slice itself needs one more
byte than the check guarantees, and when exactly that byte is missing the
slice is a Rust panic, modelled by `Fault.crash`. -/
def ResourceRecord.parse (b : List Nat) : Except Fault (Nat × ResourceRecord) :=
  match parseLabelBytes b with
  | .error e => .error (.err e)
  | .ok (offset, name) =>
    if offset + 9 ≥ b.length then .error (.err .ParseError)
    else
      let t := b.getD offset 0 * 256 + b.getD (offset + 1) 0
      let cls := b.getD (offset + 2) 0 * 256 + b.getD (offset + 3) 0
      let ttl := b.getD (offset + 4) 0 * 16777216 + b.getD (offset + 5) 0 * 65536 +
        b.getD (offset + 6) 0 * 256 + b.getD (offset + 7) 0
      let rdlength := b.getD (offset + 8) 0 * 256 + b.getD (offset + 9) 0
      if b.length < offset + 9 + rdlength then .error (.err .ParseError)
      else if rdlength = 0 then
        .ok (offset + 9 + 1,
          { name := name, t := t, cls := cls, ttl := ttl, rdlength := rdlength, rdata := [] })
      else if b.length < offset + 10 + rdlength then .error .crash
      else
        .ok (offset + 9 + rdlength + 1,
          { name := name, t := t, cls := cls, ttl := ttl, rdlength := rdlength,
            rdata := (b.drop (offset + 10)).take rdlength })

/-- `Message` from `mod.rs`. -/
structure Message where
  hdr : Header
  qd : List Question
  an : List ResourceRecord
  ar : List ResourceRecord
  ns : List ResourceRecord
deriving DecidableEq, Repr

/-- The `for _ in 0..hdr.qdcount` loop of `Message::parse`: parses `count`
questions sequentially starting at `offset`.  `&b[offset..]` with
`offset > b.len()` would be a Rust panic (`Fault.crash`). -/
def parseQuestions (b : List Nat) : Nat → Nat → Except Fault (Nat × List Question)
  | 0, offset => .ok (offset, [])
  | count + 1, offset =>
    if offset > b.length then .error .crash
    else
      match Question.parse (b.drop offset) with
      | .error e => .error (.err e)
      | .ok (read, q) =>
        match parseQuestions b count (offset + read) with
        | .error f => .error f
        | .ok (offset', qs) => .ok (offset', q :: qs)

/-- The record loops of `Message::parse`: parses `count` resource records
sequentially starting at `offset`. -/
def parseRecords (b : List Nat) : Nat → Nat → Except Fault (Nat × List ResourceRecord)
  | 0, offset => .ok (offset, [])
  | count + 1, offset =>
    if offset > b.length then .error .crash
    else
      match ResourceRecord.parse (b.drop offset) with
      | .error f => .error f
      | .ok (read, r) =>
        match parseRecords b count (offset + read) with
        | .error f => .error f
        | .ok (offset', rs) => .ok (offset', r :: rs)

/-- Second-pass name resolution for one question (`mod.rs` lines 56-58):
`resolve_labels(b, &mut q.qname)?` replaces the name in place. -/
def resolveQuestion (b : List Nat) (q : Question) : Except Fault Question :=
  match resolveLabels b q.qname with
  | .error f => .error f
  | .ok (ls, _) => .ok { q with qname := ls }

/-- Second-pass resolution over a question list, in order. -/
def resolveQuestions (b : List Nat) : List Question → Except Fault (List Question)
  | [] => .ok []
  | q :: rest =>
    match resolveQuestion b q with
    | .error f => .error f
    | .ok q' =>
      match resolveQuestions b rest with
      | .error f => .error f
      | .ok rest' => .ok (q' :: rest')

/-- Second-pass name resolution for one resource record (`mod.rs`
lines 60-70). -/
def resolveRecord (b : List Nat) (r : ResourceRecord) : Except Fault ResourceRecord :=
  match resolveLabels b r.name with
  | .error f => .error f
  | .ok (ls, _) => .ok { r with name := ls }

/-- Second-pass resolution over a record list, in order. -/
def resolveRecords (b : List Nat) : List ResourceRecord → Except Fault (List ResourceRecord)
  | [] => .ok []
  | r :: rest =>
    match resolveRecord b r with
    | .error f => .error f
    | .ok r' =>
      match resolveRecords b rest with
      | .error f => .error f
      | .ok rest' => .ok (r' :: rest')

/-- `Message::parse` (`mod.rs` lines 23-80): header, then exactly `qdcount`
questions, `ancount`, `arcount`, `nscount` records consumed sequentially in
that source order, then the pointer-resolution pass over every name against
the entire original buffer. -/
def Message.parse (b : List Nat) : Except Fault (Nat × Message) :=
  match Header.parse b with
  | .error e => .error (.err e)
  | .ok hdr =>
    match parseQuestions b hdr.qdcount 12 with
    | .error f => .error f
    | .ok (o1, qd) =>
      match parseRecords b hdr.ancount o1 with
      | .error f => .error f
      | .ok (o2, an) =>
        match parseRecords b hdr.arcount o2 with
        | .error f => .error f
        | .ok (o3, ar) =>
          match parseRecords b hdr.nscount o3 with
          | .error f => .error f
          | .ok (o4, ns) =>
            match resolveQuestions b qd with
            | .error f => .error f
            | .ok qd' =>
              match resolveRecords b an with
              | .error f => .error f
              | .ok an' =>
                match resolveRecords b ar with
                | .error f => .error f
                | .ok ar' =>
                  match resolveRecords b ns with
                  | .error f => .error f
                  | .ok ns' =>
                    .ok (o4, { hdr := hdr, qd := qd', an := an', ar := ar', ns := ns' })

/-- An IPv4 address (`std::net::Ipv4Addr`), four octets. -/
structure Ipv4 where
  a : Nat
  b : Nat
  c : Nat
  d : Nat
deriving DecidableEq, Repr

/-- The root server `198.41.0.4` used as `well_known` in `main.rs`
(the port is always 53 and is not modelled). -/
def wellKnown : Ipv4 := { a := 198, b := 41, c := 0, d := 4 }

/-- The NS-name → glue-address map of the resolver.  `HashMap::insert` is
modelled by consing; `nsLookup` returns the most recent binding, matching
`HashMap` observational behaviour. -/
abbrev NsMap := List (List Nat × Ipv4)

/-- `HashMap::get`. -/
def nsLookup (m : NsMap) (k : List Nat) : Option Ipv4 :=
  (m.find? fun p => p.1 == k).map (·.2)

/-- `HashMap::insert`. -/
def nsInsert (k : List Nat) (v : Ipv4) (m : NsMap) : NsMap := (k, v) :: m

/-- `Ipv4Addr::new(rdata[0], rdata[1], rdata[2], rdata[3])`. -/
def ipv4OfRdata (rdata : List Nat) : Ipv4 :=
  { a := rdata.getD 0 0, b := rdata.getD 1 0, c := rdata.getD 2 0, d := rdata.getD 3 0 }

/-- The abstract query exchange consumed by the resolver: `do_query` of
`main.rs` reduced to its interface (send a type-A class-IN query for the
domain to the server, receive and parse the response, also returning the
raw receive buffer).  An `Except.error` outcome stands for any I/O or parse
failure inside `do_query`; `resolve_dns_inner` `unwrap`s it, i.e. panics. -/
abbrev DoQuery := List Nat → Ipv4 → Except Unit (Message × List Nat)

/-- A record of the queries issued, in order: (domain, server) pairs. -/
abbrev Trace := List (List Nat × Ipv4)

/-- The answer scan of `resolve_dns_inner` (`main.rs` lines 73-81): first
record of type A (1) wins; its first 4 rdata bytes are the address (indexing
`rdata[3]` with fewer than 4 bytes is a Rust panic). -/
def findAnswerA : List ResourceRecord → Except Fault (Option Ipv4)
  | [] => .ok none
  | r :: rest =>
    if r.t != 1 then findAnswerA rest
    else if r.rdata.length < 4 then .error .crash
    else .ok (some (ipv4OfRdata r.rdata))

/-- The map-building loop of `resolve_dns_inner` (`main.rs` lines 84-93):
for every record of `msg.ns` with `t == 1 && class == 1`, resolve its owner
name against the raw response and insert (domain ↦ first 4 rdata bytes).
The `unwrap` of `resolve_labels` turns any of its errors into a panic. -/
def nsMapBuild (raw : List Nat) : List ResourceRecord → NsMap → Except Fault NsMap
  | [], m => .ok m
  | r :: rest, m =>
    if r.t == 1 && r.cls == 1 then
      match resolveLabels raw r.name with
      | .error _ => .error .crash
      | .ok (_, dom) =>
        if r.rdata.length < 4 then .error .crash
        else nsMapBuild raw rest (nsInsert dom (ipv4OfRdata r.rdata) m)
    else nsMapBuild raw rest m

/-- The glue-candidate loop of `resolve_dns_inner` (`main.rs` lines
95-131), abstracted over `recur`, the recursive resolver call at
`depth + 1` (domain, server, map ↦ outcome).  Records with `t ≠ 2` are
skipped; for a `t == 2` record the rdata is parsed as labels and resolved
against the raw response (`unwrap`s panic on failure); a candidate equal to
the domain being resolved is skipped; otherwise up to three recursive
attempts are made exactly as in the source, threading the map and
accumulating the query trace. -/
def arLoop (recur : List Nat → Ipv4 → NsMap → Except Fault (Option Ipv4 × NsMap × Trace))
    (domain : List Nat) (raw : List Nat) :
    List ResourceRecord → NsMap → Except Fault (Option Ipv4 × NsMap × Trace)
  | [], m => .ok (none, m, [])
  | r :: rest, m =>
    if r.t != 2 then arLoop recur domain raw rest m
    else
      match parseLabelBytes r.rdata with
      | .error _ => .error .crash
      | .ok (_, labels) =>
        match resolveLabels raw labels with
        | .error _ => .error .crash
        | .ok (_, arDomain) =>
          if domain == arDomain then arLoop recur domain raw rest m
          else
            match (match nsLookup m arDomain with
                   | some addr => recur domain addr m
                   | none => .ok (none, m, [])) with
            | .error f => .error f
            | .ok (some res, m1, tr1) => .ok (some res, m1, tr1)
            | .ok (none, m1, tr1) =>
              match recur arDomain wellKnown m1 with
              | .error f => .error f
              | .ok (some addr2, m2, tr2) =>
                match recur domain addr2 m2 with
                | .error f => .error f
                | .ok (some res, m3, tr3) => .ok (some res, m3, tr1 ++ tr2 ++ tr3)
                | .ok (none, m3, tr3) =>
                  match arLoop recur domain raw rest m3 with
                  | .error f => .error f
                  | .ok (res4, m4, tr4) => .ok (res4, m4, tr1 ++ tr2 ++ tr3 ++ tr4)
              | .ok (none, m2, tr2) =>
                match arLoop recur domain raw rest m2 with
                | .error f => .error f
                | .ok (res4, m4, tr4) => .ok (res4, m4, tr1 ++ tr2 ++ tr4)

/-- `resolve_dns_inner` (`main.rs` lines 54-133), fuel-indexed.  The Rust
function recurses with `depth + 1` under the guard `depth > 3`; here
`fuel = 4 - depth` is the explicit decreasing measure, and the `fuel = 0`
case coincides with the depth guard along every reachable call
(`fuel = 4 - depth` throughout).  The result is the returned option, the
final NS map (threaded by mutable reference in the source) and the trace of
queries issued. -/
def resolveDnsFuel (q : DoQuery) :
    Nat → Nat → List Nat → Ipv4 → NsMap → Except Fault (Option Ipv4 × NsMap × Trace)
  | 0, _, _, _, nsMap => .ok (none, nsMap, [])
  | f + 1, depth, domain, saddr, nsMap =>
    if depth > 3 then .ok (none, nsMap, [])
    else
      match q domain saddr with
      | .error _ => .error .crash
      | .ok (msg, raw) =>
        if msg.hdr.rcode != ResponseCode.NoError then .ok (none, nsMap, [(domain, saddr)])
        else
          match (if msg.hdr.ancount > 0 then findAnswerA msg.an else .ok none) with
          | .error fa => .error fa
          | .ok (some addr) => .ok (some addr, nsMap, [(domain, saddr)])
          | .ok none =>
            match nsMapBuild raw msg.ns nsMap with
            | .error fa => .error fa
            | .ok m1 =>
              match arLoop (fun d a m => resolveDnsFuel q f (depth + 1) d a m)
                  domain raw msg.ar m1 with
              | .error fa => .error fa
              | .ok (res, m2, tr) => .ok (res, m2, (domain, saddr) :: tr)

/-- `resolve_dns_inner` with the fuel instantiated to its depth-determined
value. -/
def resolveDnsInner (q : DoQuery) (depth : Nat) (domain : List Nat) (saddr : Ipv4)
    (nsMap : NsMap) : Except Fault (Option Ipv4 × NsMap × Trace) :=
  resolveDnsFuel q (4 - depth) depth domain saddr nsMap

/-- `resolve_dns` (`main.rs` lines 135-143): fresh map per top-level call. -/
def resolveDns (q : DoQuery) (depth : Nat) (domain : List Nat) (saddr : Ipv4) :
    Except Fault (Option Ipv4 × NsMap × Trace) :=
  resolveDnsInner q depth domain saddr []

/-! ## Concrete values used by witnesses and counterexamples -/

/-- A valid header: all-default fields except `rd = true` (4-bit opcode 0,
4-bit rcode 0). -/
def rdHeader : Header := { Header.default with rd := true }

/-- The 12 bytes `Header::write` produces for `rdHeader`. -/
def rdHeaderBytes : List Nat := [0, 0, 1, 0, 0, 0, 0, 0, 0, 0, 0, 0]

/-- What `Header::parse` actually returns on `rdHeaderBytes`. -/
def rdHeaderReparsed : Header := { rdHeader with opcode := Opcode.InverseQuery }

/-- An 11-byte resource-record image: root name (1 byte), ten fixed bytes
with `rdlength = 1`, and zero rdata bytes — the declared rdata length
exceeds the remaining bytes by exactly one. -/
def rrOffByOne : List Nat := [0, 0, 0, 0, 0, 0, 0, 0, 0, 0, 1]

/-- A response whose header carries `rcode = NameError` and nothing else. -/
def nameErrorMsg : Message :=
  { hdr := { Header.default with rcode := ResponseCode.NameError, qr := true },
    qd := [], an := [], ar := [], ns := [] }

/-- A query oracle that always answers `nameErrorMsg`. -/
def nameErrorOracle : DoQuery := fun _ _ => .ok (nameErrorMsg, [])

/-! ## C1 -/

/-- C1: the claim states that parsing the 12 bytes produced by
`Header::write` yields the header back for every valid header.  It fails on
the code: for the valid header `rdHeader` (RD set, opcode `StandardQuery`),
`write` places RD in bit 0 of byte 2 as claimed, but `parse` computes the
opcode as `src[2] & 0x78 >> 3` which by Rust precedence is
`src[2] & 0x0f` — the low nibble of byte 2 — so the reparsed header carries
opcode `InverseQuery`.  The round-trip equation of the claim is false at
this input, while the write-side bit layout is as documented in the
source's own header diagram, making the parse expression a slip. -/
theorem c1_header_roundtrip_fails_at_rd :
    Header.write rdHeader (List.replicate 12 0) = .ok rdHeaderBytes ∧
    Header.parse rdHeaderBytes = .ok rdHeaderReparsed ∧
    rdHeaderReparsed ≠ rdHeader := by decide

/-! ## C2 -/

/-- C2: the claim states every codec operation is total, returning a value
or a `DnsError` and never reaching an out-of-bounds index.  It fails on the
code at exactly the three places the claim names, each a Rust panic
(`Fault.crash`): `resolve_labels` slices `&msg[offset..]` with an
unchecked offset (here `1 > 0 = msg.len()`); `write_labels` writes the
terminating zero `dest[idx] = 0` without a bounds check (here the two
labels' bytes exactly fill the 2-byte destination); `ResourceRecord::parse`
checks `b.len() < offset + 9 + rdlength` but slices
`b[offset+10 .. offset+10+rdlength]`, one past the check (here
`rdlength = 1` with zero rdata bytes remaining). -/
theorem c2_codec_ops_can_crash :
    resolveLabels [] [Label.P 1] = .error .crash ∧
    writeLabels [Label.L [97]] [0, 0] = .error .crash ∧
    ResourceRecord.parse rrOffByOne = .error .crash := by decide

/-! ## C4 -/

/-- C4: the claim states `ResourceRecord::parse` returns a `ParseError`
(never a fault) whenever the declared rdlength exceeds the bytes remaining
after the name and the ten fixed bytes.  It fails on the code when the
excess is exactly one: on `rrOffByOne` (name 1 byte, ten fixed bytes,
`rdlength = 1`, 0 bytes remaining) the length check
`b.len() < offset + 9 + rdlength` passes (`11 < 11` is false) and the
rdata slice `b[11..12]` is out of bounds — a panic, not a `ParseError`. -/
theorem c4_rr_rdlength_off_by_one_crashes :
    ResourceRecord.parse rrOffByOne = .error Fault.crash ∧
    rrOffByOne.length = 11 := by decide

/-! ## C9 -/

/-- C9: for every invocation with depth greater than 3, the resolver
returns "not found" immediately: no query is sent (empty trace), the map is
untouched, and the result is `none`.  Termination of every invocation is
witnessed by `resolveDnsInner` being a total function of its inputs. -/
theorem c9_depth_guard (q : DoQuery) (depth : Nat) (domain : List Nat)
    (saddr : Ipv4) (m : NsMap) (h : depth > 3) :
    resolveDnsInner q depth domain saddr m = .ok (none, m, []) := by
  have h4 : 4 - depth = 0 := by omega
  simp [resolveDnsInner, h4, resolveDnsFuel]

/-- Witness for C9 at depth 4 with a concrete oracle. -/
theorem c9_depth_guard_witness :
    resolveDnsInner (fun _ _ => .error ()) 4 [100] wellKnown [] = .ok (none, [], []) :=
  c9_depth_guard (fun _ _ => .error ()) 4 [100] wellKnown [] (by decide)

/-! ## C8 -/

/-- C8: for every invocation that passes the depth guard, if the response's
rcode is anything but `NoError`, the invocation returns "not found" at
once: result `none`, the NS map unchanged (no map building), and the trace
exactly the single query of this invocation (no glue recursion). -/
theorem c8_rcode_short_circuits (q : DoQuery) (depth : Nat) (domain : List Nat)
    (saddr : Ipv4) (m : NsMap) (msg : Message) (raw : List Nat)
    (hdepth : depth ≤ 3) (hq : q domain saddr = .ok (msg, raw))
    (hrc : msg.hdr.rcode ≠ ResponseCode.NoError) :
    resolveDnsInner q depth domain saddr m = .ok (none, m, [(domain, saddr)]) := by
  obtain ⟨f, hf⟩ : ∃ f, 4 - depth = f + 1 := ⟨3 - depth, by omega⟩
  have hd' : ¬ depth > 3 := by omega
  have hb : (msg.hdr.rcode != ResponseCode.NoError) = true := by
    simpa using hrc
  simp [resolveDnsInner, hf, resolveDnsFuel, hd', hq, hb]

/-- Witness for C8: a NameError response at depth 0. -/
theorem c8_rcode_short_circuits_witness :
    resolveDnsInner nameErrorOracle 0 [100] wellKnown [] =
      .ok (none, [], [([100], wellKnown)]) :=
  c8_rcode_short_circuits nameErrorOracle 0 [100] wellKnown [] nameErrorMsg []
    (by decide) rfl (by decide)

/-! ## C10 -/

/-- A label that is a literal (not a pointer). -/
def Label.isLit : Label → Bool
  | .L _ => true
  | .P _ => false

/-- `write_labels` never sets `wrote_offset` on an all-literal sequence. -/
theorem writeLabelsLoop_all_literal_wroteOffset (ls : List Label) :
    ∀ d idx i2 d2 w, (∀ l ∈ ls, l.isLit = true) →
      writeLabelsLoop ls d idx = .ok (i2, d2, w) → w = false := by
  induction ls with
  | nil =>
    intro d idx i2 d2 w _ h
    simp [writeLabelsLoop] at h
    exact h.2.2
  | cons lab rest ih =>
    intro d idx i2 d2 w hlit h
    have hlab : lab.isLit = true := hlit lab (by simp)
    cases lab with
    | P off => simp [Label.isLit] at hlab
    | L str =>
      simp only [writeLabelsLoop] at h
      split at h
      · exact absurd h (by simp)
      · split at h
        · exact absurd h (by simp)
        · exact ih _ _ _ _ _ (fun l hl => hlit l (by simp [hl])) h

/-- C10: writing the empty label sequence succeeds with 0 bytes written and
the destination unchanged (no terminating zero emitted), while any
successful write of a non-empty all-literal sequence writes at least one
byte and its last written byte is the zero terminator. -/
theorem c10_write_empty_labels :
    (∀ dest : List Nat, writeLabels [] dest = .ok (0, dest)) ∧
    (∀ (ls : List Label) (dest : List Nat) (n : Nat) (d : List Nat),
      (∀ l ∈ ls, l.isLit = true) → ls ≠ [] → writeLabels ls dest = .ok (n, d) →
      0 < n ∧ d.getD (n - 1) 0 = 0) := by
  constructor
  · intro dest
    simp [writeLabels]
  · intro ls dest n d hlit hne h
    simp only [writeLabels] at h
    rw [if_neg (by simpa using hne)] at h
    cases hloop : writeLabelsLoop ls dest 0 with
    | error e => rw [hloop] at h; exact absurd h (by simp)
    | ok res =>
      obtain ⟨idx, d', w⟩ := res
      have hw : w = false := writeLabelsLoop_all_literal_wroteOffset ls dest 0 idx d' w hlit hloop
      subst hw
      rw [hloop] at h
      simp only [Bool.false_eq_true, if_false] at h
      split at h
      · exact absurd h (by simp)
      · rename_i hroom
        have hlt : idx < d'.length := by omega
        simp only [Except.ok.injEq, Prod.mk.injEq] at h
        obtain ⟨hn1, hd1⟩ := h
        subst hn1
        subst hd1
        refine ⟨by omega, ?_⟩
        simp only [Nat.add_sub_cancel]
        rw [List.getD_eq_getD_get?, List.get?_eq_getElem?, List.getElem?_set_eq_of_lt 0 hlt]
        rfl

/-- Witness for C10: both parts at concrete inputs. -/
theorem c10_write_empty_labels_witness :
    writeLabels [] [5, 6] = .ok (0, [5, 6]) ∧
    (0 < 3 ∧ ([1, 97, 0, 9, 9] : List Nat).getD (3 - 1) 0 = 0) :=
  ⟨c10_write_empty_labels.1 [5, 6],
   c10_write_empty_labels.2 [Label.L [97]] (List.replicate 5 9) 3 [1, 97, 0, 9, 9]
     (by decide) (by decide) (by decide)⟩

/-! ## C5 -/

/-- `resolveLoop` instrumented with a ghost counter of the pointer
dereferences performed (the source's `iter_count` at loop exit); erasing
the second component gives back `resolveLoop`. -/
def resolveLoopCount (msg : List Nat) : List Label → Nat → Except Fault (List Label) × Nat
  | labels, fuel =>
    match labels.getLast? with
    | none => (.ok labels, 0)
    | some lab =>
      match fuel with
      | 0 => (.error (.err .ParseError), 0)
      | fuel' + 1 =>
        match lab with
        | .L _ => (.ok labels, 0)
        | .P off =>
          if off > msg.length then (.error .crash, 0)
          else
            match parseLabelBytes (msg.drop off) with
            | .error e => (.error (.err e), 0)
            | .ok (_, next) =>
              let r := resolveLoopCount msg (labels.dropLast ++ next) fuel'
              (r.1, r.2 + 1)

/-- The ghost counter never exceeds the fuel. -/
theorem resolveLoopCount_le (msg : List Nat) :
    ∀ fuel labels, (resolveLoopCount msg labels fuel).2 ≤ fuel := by
  intro fuel
  induction fuel with
  | zero =>
    intro labels
    rw [resolveLoopCount]
    cases labels.getLast? <;> simp
  | succ f ih =>
    intro labels
    rw [resolveLoopCount]
    cases labels.getLast? with
    | none => simp
    | some lab =>
      cases lab with
      | L s => simp
      | P off =>
        simp only []
        split
        · simp
        · cases hp : parseLabelBytes (msg.drop off) with
          | error e => simp
          | ok pr =>
            obtain ⟨n, next⟩ := pr
            simpa using ih (labels.dropLast ++ next)

/-- Erasing the ghost counter gives `resolveLoop`. -/
theorem resolveLoopCount_fst (msg : List Nat) :
    ∀ fuel labels, (resolveLoopCount msg labels fuel).1 = resolveLoop msg labels fuel := by
  intro fuel
  induction fuel with
  | zero =>
    intro labels
    rw [resolveLoopCount, resolveLoop]
    cases labels.getLast? <;> simp
  | succ f ih =>
    intro labels
    rw [resolveLoopCount, resolveLoop]
    cases labels.getLast? with
    | none => simp
    | some lab =>
      cases lab with
      | L s => simp
      | P off =>
        simp only []
        split
        · simp
        · cases hp : parseLabelBytes (msg.drop off) with
          | error e => simp
          | ok pr =>
            obtain ⟨n, next⟩ := pr
            simpa using ih (labels.dropLast ++ next)

/-- A direct compression cycle (the pointed-to bytes re-parse to a sequence
ending in the same pointer) exhausts any amount of fuel and fails with a
`ParseError`. -/
theorem resolveLoop_self_cycle (msg : List Nat) (off n : Nat) (next : List Label)
    (hoff : off ≤ msg.length) (hparse : parseLabelBytes (msg.drop off) = .ok (n, next))
    (hnext : next.getLast? = some (.P off)) :
    ∀ fuel labels, labels.getLast? = some (.P off) →
      resolveLoop msg labels fuel = .error (.err .ParseError) := by
  intro fuel
  induction fuel with
  | zero =>
    intro labels hlast
    simp [resolveLoop, hlast]
  | succ f ih =>
    intro labels hlast
    have hnn : next ≠ [] := by
      intro hcon
      rw [hcon] at hnext
      simp at hnext
    rw [resolveLoop, hlast]
    simp only [hparse, if_neg (by omega : ¬ off > msg.length)]
    exact ih (labels.dropLast ++ next)
      ((List.getLast?_append_of_ne_nil labels.dropLast hnn).trans hnext)

/-- C5: `resolve_labels` terminates on every input (it is a total function
here), performing at most `MAX_LABEL_RESOLVE_DEPTH = 10` pointer
dereferences (ghost count, which erases to the real loop), and an input
whose trailing pointer re-parses to a sequence ending in the same pointer —
a compression cycle, which would require unboundedly many dereferences —
fails with a `ParseError` instead of looping. -/
theorem c5_resolve_labels_bounded (msg : List Nat) (labels : List Label) :
    ((resolveLoopCount msg labels MAX_LABEL_RESOLVE_DEPTH).2 ≤ MAX_LABEL_RESOLVE_DEPTH ∧
     (resolveLoopCount msg labels MAX_LABEL_RESOLVE_DEPTH).1 =
       resolveLoop msg labels MAX_LABEL_RESOLVE_DEPTH) ∧
    (∀ off n next, labels.getLast? = some (.P off) → off ≤ msg.length →
      parseLabelBytes (msg.drop off) = .ok (n, next) → next.getLast? = some (.P off) →
      resolveLabels msg labels = .error (.err .ParseError)) := by
  refine ⟨⟨resolveLoopCount_le msg _ labels, resolveLoopCount_fst msg _ labels⟩, ?_⟩
  intro off n next hlast hoff hparse hnext
  unfold resolveLabels
  rw [resolveLoop_self_cycle msg off n next hoff hparse hnext MAX_LABEL_RESOLVE_DEPTH
    labels hlast]

/-- The cycle buffer of the repository's own `test_resolve_cycle`:
`3 "dns" 6 "google" 0xC0 0x00`. -/
def cycleBuf : List Nat := [3, 100, 110, 115, 6, 103, 111, 111, 103, 108, 101, 192, 0]

/-- Its parse: two literals and a pointer back to offset 0. -/
def cycleLabels : List Label :=
  [.L [100, 110, 115], .L [103, 111, 111, 103, 108, 101], .P 0]

/-- Witness for C5 at the repository's own cycle test vector. -/
theorem c5_resolve_labels_bounded_witness :
    resolveLabels cycleBuf cycleLabels = .error (.err .ParseError) :=
  (c5_resolve_labels_bounded cycleBuf cycleLabels).2 0 13 cycleLabels
    (by decide) (by decide) (by decide) (by decide)

/-! ## C6 -/

/-- Parsing `count` questions yields exactly `count` questions. -/
theorem parseQuestions_length (b : List Nat) :
    ∀ count offset o qs, parseQuestions b count offset = .ok (o, qs) → qs.length = count := by
  intro count
  induction count with
  | zero =>
    intro offset o qs h
    simp only [parseQuestions, Except.ok.injEq, Prod.mk.injEq] at h
    rw [← h.2]
    rfl
  | succ c ih =>
    intro offset o qs h
    simp only [parseQuestions] at h
    split at h
    · exact absurd h (by simp)
    · split at h
      · exact absurd h (by simp)
      · rename_i read q heq
        split at h
        · exact absurd h (by simp)
        · rename_i o2 qs2 heq2
          simp only [Except.ok.injEq, Prod.mk.injEq] at h
          rw [← h.2]
          simpa using ih _ _ _ heq2

/-- Parsing `count` resource records yields exactly `count` records. -/
theorem parseRecords_length (b : List Nat) :
    ∀ count offset o rs, parseRecords b count offset = .ok (o, rs) → rs.length = count := by
  intro count
  induction count with
  | zero =>
    intro offset o rs h
    simp only [parseRecords, Except.ok.injEq, Prod.mk.injEq] at h
    rw [← h.2]
    rfl
  | succ c ih =>
    intro offset o rs h
    simp only [parseRecords] at h
    split at h
    · exact absurd h (by simp)
    · split at h
      · exact absurd h (by simp)
      · rename_i read r heq
        split at h
        · exact absurd h (by simp)
        · rename_i o2 rs2 heq2
          simp only [Except.ok.injEq, Prod.mk.injEq] at h
          rw [← h.2]
          simpa using ih _ _ _ heq2

/-- The resolution pass preserves the number of questions. -/
theorem resolveQuestions_length (b : List Nat) :
    ∀ qs qs', resolveQuestions b qs = .ok qs' → qs'.length = qs.length := by
  intro qs
  induction qs with
  | nil =>
    intro qs' h
    simp only [resolveQuestions, Except.ok.injEq] at h
    rw [← h]
  | cons q rest ih =>
    intro qs' h
    simp only [resolveQuestions] at h
    split at h
    · exact absurd h (by simp)
    · split at h
      · exact absurd h (by simp)
      · rename_i q1 hq1 rest' hrest
        simp only [Except.ok.injEq] at h
        rw [← h]
        simpa using ih _ hrest

/-- The resolution pass preserves the number of records. -/
theorem resolveRecords_length (b : List Nat) :
    ∀ rs rs', resolveRecords b rs = .ok rs' → rs'.length = rs.length := by
  intro rs
  induction rs with
  | nil =>
    intro rs' h
    simp only [resolveRecords, Except.ok.injEq] at h
    rw [← h]
  | cons r rest ih =>
    intro rs' h
    simp only [resolveRecords] at h
    split at h
    · exact absurd h (by simp)
    · split at h
      · exact absurd h (by simp)
      · rename_i r1 hr1 rest' hrest
        simp only [Except.ok.injEq] at h
        rw [← h]
        simpa using ih _ hrest

/-- C6: every successfully parsed message carries exactly as many entries
in each section list as the corresponding header count, the sections having
been consumed sequentially in the source order qd, an, ar, ns. -/
theorem c6_message_counts (b : List Nat) (n : Nat) (m : Message)
    (h : Message.parse b = .ok (n, m)) :
    m.qd.length = m.hdr.qdcount ∧ m.an.length = m.hdr.ancount ∧
    m.ar.length = m.hdr.arcount ∧ m.ns.length = m.hdr.nscount := by
  simp only [Message.parse] at h
  split at h
  · exact absurd h (by simp)
  · rename_i hdr hhdr
    split at h
    · exact absurd h (by simp)
    · rename_i o1 qd hqd
      split at h
      · exact absurd h (by simp)
      · rename_i o2 an han
        split at h
        · exact absurd h (by simp)
        · rename_i o3 ar har
          split at h
          · exact absurd h (by simp)
          · rename_i o4 ns hns
            split at h
            · exact absurd h (by simp)
            · rename_i qd' hqd'
              split at h
              · exact absurd h (by simp)
              · rename_i an' han'
                split at h
                · exact absurd h (by simp)
                · rename_i ar' har'
                  split at h
                  · exact absurd h (by simp)
                  · rename_i ns' hns'
                    simp only [Except.ok.injEq, Prod.mk.injEq] at h
                    obtain ⟨-, hm⟩ := h
                    rw [← hm]
                    refine ⟨?_, ?_, ?_, ?_⟩
                    · rw [resolveQuestions_length b qd qd' hqd']
                      exact parseQuestions_length b _ _ _ _ hqd
                    · rw [resolveRecords_length b an an' han']
                      exact parseRecords_length b _ _ _ _ han
                    · rw [resolveRecords_length b ar ar' har']
                      exact parseRecords_length b _ _ _ _ har
                    · rw [resolveRecords_length b ns ns' hns']
                      exact parseRecords_length b _ _ _ _ hns

/-- The trivial 12-zero-byte message. -/
def emptyMsg : Message := { hdr := Header.default, qd := [], an := [], ar := [], ns := [] }

/-- Witness for C6 at the 12-zero-byte buffer. -/
theorem c6_message_counts_witness :
    emptyMsg.qd.length = emptyMsg.hdr.qdcount ∧
    emptyMsg.an.length = emptyMsg.hdr.ancount ∧
    emptyMsg.ar.length = emptyMsg.hdr.arcount ∧
    emptyMsg.ns.length = emptyMsg.hdr.nscount :=
  c6_message_counts (List.replicate 12 0) 12 emptyMsg (by decide)

/-! ## C3 -/

/-- A genuine NS record: type NS (2), class IN (1), owner name `"a"`. -/
def nsRecord : ResourceRecord :=
  { name := [.L [97]], t := 2, cls := 1, ttl := 0, rdlength := 4, rdata := [1, 2, 3, 4] }

/-- A genuine A record: type A (1), class IN (1), owner name `"a"`,
rdata an address. -/
def aRecord : ResourceRecord :=
  { name := [.L [97]], t := 1, cls := 1, ttl := 0, rdlength := 4, rdata := [1, 2, 3, 4] }

/-- A recursive-call stub that always answers "not found" untouched. -/
def nullRecur : List Nat → Ipv4 → NsMap → Except Fault (Option Ipv4 × NsMap × Trace) :=
  fun _ _ m => .ok (none, m, [])

/-- C3 counterexample: the claim says the map receives an entry exactly for
the `msg.ns` (authority) records of type NS (2) and class IN (1), and that
the glue loop iterates the `msg.ar` records of type A (1).  On the code
both filters are the other constant: the genuine NS/IN record `nsRecord`
(owner name resolving to `"a"`) produces NO map entry (the build returns
the empty map unchanged), and the glue loop skips the genuine A record
`aRecord` without ever parsing its rdata — while it does process a type-2
record, whose 4-byte address rdata then fails to parse as labels and
crashes. -/
theorem c3_counterexample :
    nsRecord.t = 2 ∧ nsRecord.cls = 1 ∧
    resolveLabels [] nsRecord.name = .ok ([.L [97]], [97]) ∧
    nsMapBuild [] [nsRecord] [] = .ok [] ∧
    aRecord.t = 1 ∧
    arLoop nullRecur [100] [] [aRecord] [] = .ok (none, [], []) ∧
    arLoop nullRecur [100] [] [nsRecord] [] = .error .crash := by
  refine ⟨rfl, rfl, by decide, by decide, rfl, by decide, by decide⟩

/-- The map builder only ever conses new entries onto the map it is given. -/
theorem nsMapBuild_extends (raw : List Nat) :
    ∀ rs m m', nsMapBuild raw rs m = .ok m' → ∃ pre, m' = pre ++ m := by
  intro rs
  induction rs with
  | nil =>
    intro m m' h
    simp only [nsMapBuild, Except.ok.injEq] at h
    exact ⟨[], h.symm⟩
  | cons r rest ih =>
    intro m m' h
    rw [nsMapBuild] at h
    split at h
    · split at h
      · exact absurd h (by simp)
      · rename_i ls0 dom0 hres
        split at h
        · exact absurd h (by simp)
        · obtain ⟨pre, hpre⟩ := ih _ _ h
          exact ⟨pre ++ [(dom0, ipv4OfRdata r.rdata)], by simp [hpre, nsInsert]⟩
    · exact ih _ _ h

/-- `nsLookup` on a cons: the head shadows the tail. -/
theorem nsLookup_cons (p : List Nat × Ipv4) (m : NsMap) (k : List Nat) :
    nsLookup (p :: m) k = if (p.1 == k) = true then some p.2 else nsLookup m k := by
  simp only [nsLookup, List.find?_cons]
  cases hp : (p.1 == k) <;> simp [hp]

/-- A key found in the suffix is still found in the appended map. -/
theorem nsLookup_append_isSome (pre m0 : NsMap) (k : List Nat)
    (h : (nsLookup m0 k).isSome) : (nsLookup (pre ++ m0) k).isSome := by
  induction pre with
  | nil => simpa using h
  | cons p pre ih =>
    rw [List.cons_append, nsLookup_cons]
    by_cases hp : (p.1 == k) = true
    · rw [if_pos hp]
      rfl
    · rw [if_neg hp]
      exact ih

/-- C3 amended: the map receives an entry exactly for the `msg.ns` records
whose type field equals 1 and whose class field equals 1 — keyed by the
record's owner name resolved against the full response buffer, valued by
its first 4 rdata bytes as an IPv4 address — and the glue-candidate loop
iterates exactly the `msg.ar` records whose type field equals 2, resolving
each one's rdata label sequence against the full response buffer (records
of any other type are skipped without their rdata being touched). -/
theorem c3_amended :
    (∀ raw rs m m', nsMapBuild raw rs m = .ok m' →
      ((∀ r ∈ rs, r.t = 1 → r.cls = 1 →
          ∃ ls dom, resolveLabels raw r.name = .ok (ls, dom) ∧ (nsLookup m' dom).isSome) ∧
       (∀ k v, nsLookup m' k = some v → nsLookup m k = some v ∨
          ∃ r, r ∈ rs ∧ r.t = 1 ∧ r.cls = 1 ∧ 4 ≤ r.rdata.length ∧
            (∃ ls, resolveLabels raw r.name = .ok (ls, k)) ∧ v = ipv4OfRdata r.rdata))) ∧
    (∀ recur domain raw r rest m, r.t ≠ 2 →
      arLoop recur domain raw (r :: rest) m = arLoop recur domain raw rest m) ∧
    (∀ recur domain raw r rest m e, r.t = 2 → parseLabelBytes r.rdata = .error e →
      arLoop recur domain raw (r :: rest) m = .error .crash) := by
  refine ⟨?_, ?_, ?_⟩
  · intro raw rs
    induction rs with
    | nil =>
      intro m m' h
      simp only [nsMapBuild, Except.ok.injEq] at h
      subst h
      exact ⟨by simp, fun k v hkv => Or.inl hkv⟩
    | cons r rest ih =>
      intro m m' h
      rw [nsMapBuild] at h
      split at h
      · rename_i hft
        have hft' : r.t = 1 ∧ r.cls = 1 := by
          simpa [Bool.and_eq_true, beq_iff_eq] using hft
        split at h
        · exact absurd h (by simp)
        · rename_i ls0 dom0 hres
          split at h
          · exact absurd h (by simp)
          · rename_i hlen
            have hlen' : 4 ≤ r.rdata.length := by omega
            constructor
            · intro r' hr' ht' hc'
              rcases List.mem_cons.1 hr' with hr0 | hrest
              · subst hr0
                refine ⟨ls0, dom0, hres, ?_⟩
                obtain ⟨pre, hpre⟩ := nsMapBuild_extends raw rest _ _ h
                subst hpre
                refine nsLookup_append_isSome pre _ dom0 ?_
                rw [show nsInsert dom0 (ipv4OfRdata r'.rdata) m =
                  (dom0, ipv4OfRdata r'.rdata) :: m from rfl, nsLookup_cons]
                rw [if_pos (by simp)]
                rfl
              · exact (ih _ _ h).1 r' hrest ht' hc'
            · intro k v hkv
              rcases (ih _ _ h).2 k v hkv with hold | ⟨r', hr', h1, h2, h3, h4, h5⟩
              · rw [show nsInsert dom0 (ipv4OfRdata r.rdata) m =
                  (dom0, ipv4OfRdata r.rdata) :: m from rfl, nsLookup_cons] at hold
                by_cases hk : ((dom0, ipv4OfRdata r.rdata).1 == k) = true
                · rw [if_pos hk] at hold
                  right
                  have hdk : dom0 = k := by simpa using hk
                  refine ⟨r, List.mem_cons_self r rest, hft'.1, hft'.2, hlen',
                    ⟨ls0, by rw [hres, hdk]⟩, ?_⟩
                  simpa using hold.symm
                · rw [if_neg hk] at hold
                  exact Or.inl hold
              · exact Or.inr ⟨r', List.mem_cons_of_mem r hr', h1, h2, h3, h4, h5⟩
      · rename_i hft
        constructor
        · intro r' hr' ht' hc'
          rcases List.mem_cons.1 hr' with hr0 | hrest
          · subst hr0
            rw [show (r'.t == 1 && r'.cls == 1) = true by simp [ht', hc']] at hft
            exact absurd hft (by simp)
          · exact (ih _ _ h).1 r' hrest ht' hc'
        · intro k v hkv
          rcases (ih _ _ h).2 k v hkv with hold | ⟨r', hr', h1, h2, h3, h4, h5⟩
          · exact Or.inl hold
          · exact Or.inr ⟨r', List.mem_cons_of_mem r hr', h1, h2, h3, h4, h5⟩
  · intro recur domain raw r rest m ht
    rw [arLoop]
    rw [if_pos (show (r.t != 2) = true by simpa using ht)]
  · intro recur domain raw r rest m e ht hparse
    rw [arLoop]
    rw [if_neg (show ¬ (r.t != 2) = true by simp [ht]), hparse]

/-- The map after processing the single glue A record `aRecord`. -/
def glueMap : NsMap := [([97], { a := 1, b := 2, c := 3, d := 4 })]

/-- Witness for C3 amended: the A/IN record `aRecord` does produce a map
entry under its resolved owner name, and a non-type-2 additional record is
skipped by the glue loop. -/
theorem c3_amended_witness :
    (∃ ls dom, resolveLabels [] aRecord.name = .ok (ls, dom) ∧ (nsLookup glueMap dom).isSome) ∧
    arLoop nullRecur [100] [] (aRecord :: []) [] = arLoop nullRecur [100] [] [] [] :=
  ⟨(c3_amended.1 [] [aRecord] [] glueMap (by decide)).1 aRecord (by decide) rfl rfl,
   c3_amended.2.1 nullRecur [100] [] aRecord [] [] (by decide)⟩

/-! ## C7 -/

/-- A well-formed literal label: non-empty and at most 63 octets. -/
def goodLit : Label → Bool
  | .L str => decide (0 < str.length) && decide (str.length ≤ 63)
  | .P _ => false

/-- The wire image of an all-literal label sequence, without the
terminating zero: each label as a length octet followed by its bytes. -/
def encCore : List Label → List Nat
  | [] => []
  | .L str :: t => str.length :: (str ++ encCore t)
  | .P _ :: t => encCore t

/-- Length of the wire image (without the terminator). -/
def encLen (ls : List Label) : Nat := (encCore ls).length

/-- Replacing the bytes of `d` from position `i` on by `s` (the effect of a
run of in-bounds `set`s). -/
def listOverwrite (d : List Nat) (i : Nat) (s : List Nat) : List Nat :=
  d.take i ++ s ++ d.drop (i + s.length)

theorem listOverwrite_nil (d : List Nat) (i : Nat) : listOverwrite d i [] = d := by
  simp [listOverwrite]

theorem listOverwrite_length (d : List Nat) (i : Nat) (s : List Nat)
    (h : i + s.length ≤ d.length) : (listOverwrite d i s).length = d.length := by
  simp only [listOverwrite, List.length_append, List.length_take, List.length_drop]
  omega

theorem set_eq_listOverwrite (d : List Nat) (i : Nat) (v : Nat) (h : i < d.length) :
    d.set i v = listOverwrite d i [v] := by
  rw [List.set_eq_take_cons_drop v h]
  simp [listOverwrite]

theorem listOverwrite_append (d : List Nat) (i : Nat) (a b : List Nat)
    (hi : i ≤ d.length) :
    listOverwrite (listOverwrite d i a) (i + a.length) b = listOverwrite d i (a ++ b) := by
  have hL : (d.take i ++ a).length = i + a.length := by
    simp only [List.length_append, List.length_take]
    omega
  simp only [listOverwrite]
  rw [List.take_left' hL]
  rw [List.drop_append_eq_append_drop]
  rw [List.drop_eq_nil_of_le (by omega : (d.take i ++ a).length ≤ i + a.length + b.length)]
  rw [hL]
  rw [show i + a.length + b.length - (i + a.length) = b.length by omega]
  rw [List.drop_drop]
  simp only [List.nil_append, List.append_assoc, List.length_append]
  rw [show i + a.length + b.length = i + (a.length + b.length) by omega]

/-- `writeStringBytes` with enough room writes the bytes verbatim. -/
theorem writeStringBytes_ok (s : List Nat) :
    ∀ d idx, idx + s.length ≤ d.length →
      writeStringBytes s d idx = .ok (idx + s.length, listOverwrite d idx s) := by
  induction s with
  | nil =>
    intro d idx h
    simp [writeStringBytes, listOverwrite_nil]
  | cons byte rest ih =>
    intro d idx h
    have hlt : idx < d.length := by
      simp only [List.length_cons] at h
      omega
    rw [writeStringBytes, if_neg (by omega)]
    rw [ih (d.set idx byte) (idx + 1) (by simp only [List.length_set, List.length_cons] at h ⊢; omega)]
    rw [set_eq_listOverwrite d idx byte hlt]
    have hcomb := listOverwrite_append d idx [byte] rest (by omega)
    simp only [List.length_singleton] at hcomb
    rw [hcomb]
    simp only [List.singleton_append, List.length_cons, Except.ok.injEq, Prod.mk.injEq]
    exact ⟨by omega, trivial⟩

/-- `writeLabelsLoop` on a well-formed all-literal sequence with enough
room writes exactly the wire image, leaves `wrote_offset` unset, and
advances the cursor by the image's length. -/
theorem writeLabelsLoop_literals (ls : List Label) (hgood : ∀ l ∈ ls, goodLit l = true) :
    ∀ d idx, idx + encLen ls ≤ d.length →
      writeLabelsLoop ls d idx = .ok (idx + encLen ls, listOverwrite d idx (encCore ls), false) := by
  induction ls with
  | nil =>
    intro d idx h
    simp [writeLabelsLoop, encLen, encCore, listOverwrite_nil]
  | cons lab rest ih =>
    intro d idx h
    have hlab : goodLit lab = true := hgood lab (by simp)
    cases lab with
    | P off => simp [goodLit] at hlab
    | L str =>
      have hstr : 0 < str.length ∧ str.length ≤ 63 := by
        simpa [goodLit] using hlab
      have hel : encLen (.L str :: rest) = 1 + str.length + encLen rest := by
        simp [encLen, encCore]
        omega
      have hroom : idx + 1 + str.length + encLen rest ≤ d.length := by omega
      have hlt : idx < d.length := by omega
      rw [writeLabelsLoop, if_neg (by omega)]
      rw [show str.length % 256 = str.length from Nat.mod_eq_of_lt (by omega)]
      rw [writeStringBytes_ok str (d.set idx str.length) (idx + 1)
        (by simp only [List.length_set]; omega)]
      rw [set_eq_listOverwrite d idx str.length hlt]
      have hcomb := listOverwrite_append d idx [str.length] str (by omega)
      simp only [List.length_singleton] at hcomb
      rw [hcomb]
      have hlen2 : (([str.length] ++ str) : List Nat).length = 1 + str.length := by
        simp
        omega
      have iha := ih (fun l hl => hgood l (by simp [hl]))
        (listOverwrite d idx ([str.length] ++ str)) (idx + 1 + str.length)
        (by rw [listOverwrite_length d idx _ (by rw [hlen2]; omega)]; omega)
      refine iha.trans ?_
      have hcomb2 := listOverwrite_append d idx ([str.length] ++ str) (encCore rest) (by omega)
      rw [hlen2] at hcomb2
      rw [show idx + 1 + str.length = idx + (1 + str.length) by omega, hcomb2]
      simp only [Except.ok.injEq, Prod.mk.injEq]
      refine ⟨by omega, ?_, trivial⟩
      have hcat : ([str.length] ++ str) ++ encCore rest = encCore (.L str :: rest) := by
        simp [encCore]
      rw [hcat]

/-- `write_labels` on a well-formed, non-empty, all-literal sequence with
room for the image and its terminator writes the image followed by a zero
octet, reporting `encLen ls + 1` bytes written. -/
theorem writeLabels_literals (ls : List Label) (dest : List Nat)
    (hgood : ∀ l ∈ ls, goodLit l = true) (hne : ls ≠ [])
    (hroom : encLen ls + 1 ≤ dest.length) :
    writeLabels ls dest =
      .ok (encLen ls + 1, encCore ls ++ 0 :: dest.drop (encLen ls + 1)) := by
  have hloop := writeLabelsLoop_literals ls hgood dest 0 (by omega)
  have hlen : (listOverwrite dest 0 (encCore ls)).length = dest.length := by
    rw [listOverwrite_length dest 0 _ (by simp only [Nat.zero_add]; exact
      (by omega : encLen ls ≤ dest.length))]
  have h1 : writeLabels ls dest =
      if (listOverwrite dest 0 (encCore ls)).length ≤ 0 + encLen ls then Except.error Fault.crash
      else Except.ok (0 + encLen ls + 1, (listOverwrite dest 0 (encCore ls)).set (0 + encLen ls) 0) := by
    rw [writeLabels, if_neg (by simpa using hne), hloop]
    exact rfl
  rw [h1, if_neg (by omega)]
  have hset := set_eq_listOverwrite (listOverwrite dest 0 (encCore ls)) (0 + encLen ls) 0
    (by omega)
  rw [hset]
  have hcomb := listOverwrite_append dest 0 (encCore ls) [0] (by omega)
  rw [show (0 : Nat) + (encCore ls).length = 0 + encLen ls from by simp [encLen]] at hcomb
  rw [hcomb]
  simp only [listOverwrite, List.take_zero, List.nil_append, List.length_append,
    List.length_singleton, Except.ok.injEq, Prod.mk.injEq, List.append_assoc,
    List.singleton_append]
  refine ⟨by omega, ?_⟩
  simp [encLen]

theorem getElem?_of_drop_cons {b : List Nat} {idx x : Nat} {r : List Nat}
    (h : b.drop idx = x :: r) : b[idx]? = some x := by
  have hd := List.getElem?_drop b idx 0
  rw [h] at hd
  simpa using hd.symm

theorem drop_succ_of_drop_cons {b : List Nat} {idx x : Nat} {r : List Nat}
    (h : b.drop idx = x :: r) : b.drop (idx + 1) = r := by
  have hd := List.drop_drop 1 idx b
  rw [h] at hd
  simpa using hd.symm

theorem lt_length_of_drop_cons {b : List Nat} {idx x : Nat} {r : List Nat}
    (h : b.drop idx = x :: r) : idx < b.length := by
  by_contra hc
  push_neg at hc
  rw [List.drop_eq_nil_of_le hc] at h
  exact absurd h (by simp)

theorem length_of_drop_eq {b : List Nat} {idx : Nat} {r : List Nat}
    (h : b.drop idx = r) (hlt : idx ≤ b.length) : b.length = idx + r.length := by
  have hl := List.length_drop idx b
  rw [h] at hl
  omega

/-- Each well-formed literal contributes at least one image byte. -/
theorem length_le_encLen (ls : List Label) (hgood : ∀ l ∈ ls, goodLit l = true) :
    ls.length ≤ encLen ls := by
  induction ls with
  | nil => simp [encLen, encCore]
  | cons lab rest ih =>
    cases lab with
    | P off => exact absurd (hgood (Label.P off) (by simp)) (by simp [goodLit])
    | L str =>
      have hr := ih (fun l hl => hgood l (by simp [hl]))
      simp only [encLen, encCore, List.length_cons, List.length_append] at hr ⊢
      omega

/-- Parsing the wire image of a well-formed all-literal sequence (followed
by the zero terminator) from position `idx` consumes exactly the image and
appends exactly the original labels. -/
theorem parseLabelBytesLoop_enc (ls : List Label) (hgood : ∀ l ∈ ls, goodLit l = true) :
    ∀ fuel b idx acc, b.drop idx = encCore ls ++ [0] → ls.length + 1 ≤ fuel →
      parseLabelBytesLoop b fuel idx acc = .ok (idx + encLen ls + 1, acc ++ ls) := by
  induction ls with
  | nil =>
    intro fuel b idx acc hdrop hfuel
    obtain ⟨f, rfl⟩ : ∃ f, fuel = f + 1 := ⟨fuel - 1, by omega⟩
    simp only [encCore, List.nil_append] at hdrop
    have hlt : idx < b.length := lt_length_of_drop_cons hdrop
    have hc : b[idx]? = some 0 := getElem?_of_drop_cons hdrop
    rw [parseLabelBytesLoop, if_pos hlt]
    simp [hc, encLen, encCore]
  | cons lab rest ih =>
    intro fuel b idx acc hdrop hfuel
    obtain ⟨f, rfl⟩ : ∃ f, fuel = f + 1 := ⟨fuel - 1, by omega⟩
    cases lab with
    | P off => exact absurd (hgood (Label.P off) (by simp)) (by simp [goodLit])
    | L str =>
      have hstr : 0 < str.length ∧ str.length ≤ 63 := by
        simpa [goodLit] using hgood _ (by simp : Label.L str ∈ Label.L str :: rest)
      simp only [encCore, List.cons_append, List.append_assoc] at hdrop
      have hlt : idx < b.length := lt_length_of_drop_cons hdrop
      have hc : b[idx]? = some str.length := getElem?_of_drop_cons hdrop
      have hdrop1 : b.drop (idx + 1) = str ++ (encCore rest ++ [0]) :=
        drop_succ_of_drop_cons hdrop
      have hblen : b.length = idx + 1 + (str.length + ((encCore rest).length + 1)) := by
        have := length_of_drop_eq hdrop1 (by omega)
        simp only [List.length_append, List.length_singleton] at this
        omega
      have hp2 : ¬ ((str.length &&& 0xC0 == 0xC0) = true) := by
        have hle : str.length &&& 0xC0 ≤ str.length := Nat.and_le_left
        simp only [beq_iff_eq]
        omega
      have hz2 : ¬ ((str.length == 0) = true) := by
        simp only [beq_iff_eq]
        omega
      have hbound : ¬ idx + str.length ≥ b.length := by omega
      have hslice : (b.drop (idx + 1)).take str.length = str := by
        rw [hdrop1]
        exact List.take_left str _
      have hdrop2 : b.drop (idx + str.length + 1) = encCore rest ++ [0] := by
        have hd2 := List.drop_drop str.length (idx + 1) b
        rw [hdrop1, List.drop_left] at hd2
        rw [show idx + str.length + 1 = idx + 1 + str.length by omega]
        exact hd2.symm
      rw [parseLabelBytesLoop, if_pos hlt]
      simp only [List.getD_eq_getElem?_getD, hc, Option.getD_some]
      rw [if_neg hp2, if_neg hz2, if_neg hbound, hslice]
      have hfr : rest.length + 1 ≤ f := by
        simp only [List.length_cons] at hfuel
        omega
      rw [ih (fun l hl => hgood l (by simp [hl])) f b (idx + str.length + 1)
        (acc ++ [Label.L str]) hdrop2 hfr]
      simp only [Except.ok.injEq, Prod.mk.injEq, List.append_assoc, List.singleton_append]
      constructor
      · simp only [encLen, encCore, List.length_cons, List.length_append]
        omega
      · trivial

/-- C7 counterexample: the claim quantifies over every all-literal sequence
with labels of at most 63 octets, which includes a zero-length literal.
Writing `[L ""]` emits its length octet 0 — indistinguishable from the
terminator — plus the terminator (2 bytes); re-parsing the written prefix
stops at the first zero octet and returns 1 byte consumed and no labels,
not the original sequence. -/
theorem c7_counterexample :
    writeLabels [Label.L []] (List.replicate 10 0) = .ok (2, List.replicate 10 0) ∧
    parseLabelBytes ((List.replicate 10 0).take 2) = .ok (1, []) ∧
    ((1, ([] : List Label)) ≠ (2, [Label.L []])) := by
  refine ⟨by decide, by decide, by decide⟩

/-- C7 amended: for every non-empty label sequence of literal labels of 1
to 63 octets each and every destination with room for the image and its
terminator, `write_labels` writes exactly the image followed by the zero
terminator, the written prefix of the destination is that image, and
`parse_label_bytes` on it consumes exactly the bytes written and returns
exactly the original label sequence. -/
theorem c7_write_parse_roundtrip (ls : List Label) (dest : List Nat)
    (hgood : ∀ l ∈ ls, goodLit l = true) (hne : ls ≠ [])
    (hroom : encLen ls + 1 ≤ dest.length) :
    writeLabels ls dest = .ok (encLen ls + 1, encCore ls ++ 0 :: dest.drop (encLen ls + 1)) ∧
    (encCore ls ++ 0 :: dest.drop (encLen ls + 1)).take (encLen ls + 1) = encCore ls ++ [0] ∧
    parseLabelBytes (encCore ls ++ [0]) = .ok (encLen ls + 1, ls) := by
  refine ⟨writeLabels_literals ls dest hgood hne hroom, ?_, ?_⟩
  · rw [show encCore ls ++ 0 :: dest.drop (encLen ls + 1) =
      (encCore ls ++ [0]) ++ dest.drop (encLen ls + 1) by simp]
    exact List.take_left' (by simp [encLen])
  · have hfuel : ls.length + 1 ≤ (encCore ls ++ [0]).length := by
      have := length_le_encLen ls hgood
      simp only [List.length_append, List.length_singleton, encLen] at this ⊢
      omega
    have hrun := parseLabelBytesLoop_enc ls hgood ((encCore ls ++ [0]).length)
      (encCore ls ++ [0]) 0 [] (by simp) hfuel
    rw [parseLabelBytes, hrun]
    simp

/-- The label sequence `dns google com`. -/
def dnsLabels : List Label :=
  [.L [100, 110, 115], .L [103, 111, 111, 103, 108, 101], .L [99, 111, 109]]

/-- Witness for C7 amended at `dns.google.com` with a 20-byte buffer. -/
theorem c7_write_parse_roundtrip_witness :
    writeLabels dnsLabels (List.replicate 20 0) =
      .ok (encLen dnsLabels + 1,
        encCore dnsLabels ++ 0 :: (List.replicate 20 0).drop (encLen dnsLabels + 1)) ∧
    parseLabelBytes (encCore dnsLabels ++ [0]) = .ok (encLen dnsLabels + 1, dnsLabels) :=
  ⟨(c7_write_parse_roundtrip dnsLabels (List.replicate 20 0)
      (by decide) (by decide) (by decide)).1,
   (c7_write_parse_roundtrip dnsLabels (List.replicate 20 0)
      (by decide) (by decide) (by decide)).2.2⟩

end Dns

